/-
Verification of the training harness in `src/train.py` of CGMC_SBERT_ICWS2023.

The file shallowly embeds the three functions of the repository —
`train_epoch`, `train` and `main` — as pure Lean functions over rationals.
Tensor scalars are rationals; a 0-dimensional tensor produced by a reduction
is a singleton list; `np.inf` (the initial `best_rmse`) is `Option.none`;
the mutable model object is abstracted by a natural number snapshot per epoch
(`copy.deepcopy(model.state_dict())` captures the snapshot of that epoch).
External calls (`get_dataloader`, `evaluate`, the forward pass of the model)
are parameters of the embedding, so theorems quantify over their outputs.
Python raises `ZeroDivisionError` on `x % 0`; the embedding uses Lean's total
`Nat.mod` (where `x % 0 = x`), and the lr-decay theorems assume a positive
`lr_decay_step`, matching the only arithmetic the claims read.
-/
import Mathlib

namespace CGMC

/-- Fields of the YAML-driven `args` that the `train` loop itself reads:
`train_epochs`, `train_lr`, `lr_decay_step`, `lr_decay_factor`
(`src/train.py`, lines 103, 112, 129-131). -/
structure TrainArgs where
  trainEpochs : ℕ
  trainLr : ℚ
  lrDecayStep : ℕ
  lrDecayFactor : ℚ
deriving DecidableEq

/-- What one epoch of the loop observes from the external calls:
the value returned by `train_epoch`, the two `evaluate` results, and the
model snapshot that `copy.deepcopy(model.state_dict())` would capture at the
end of this epoch (`src/train.py`, lines 115-118, 138). -/
structure EpochResult where
  trainLoss : ℚ
  valRmse : ℚ
  testRmse : ℚ
  modelState : ℕ
deriving DecidableEq

/-- Operations performed by the body of the epoch loop, in program order
(`src/train.py`, lines 112-138). -/
inductive Event where
  | trainPass (epoch : ℕ)
  | evalValid (epoch : ℕ)
  | evalTest (epoch : ℕ)
  | lrDecayCheck (epoch : ℕ)
  | checkpointUpdate (epoch : ℕ)
deriving DecidableEq

/-- State threaded through the epoch loop of `train`: the optimizer's
`param_groups` learning rates, `best_epoch`, `best_rmse` (`none` models the
initial `np.inf`), `best_state` (`none` models the variable being unbound),
plus the instrumentation: operation trace and the `eval_info` log lines. -/
structure TrainState where
  lrs : List ℚ
  bestEpoch : ℕ
  bestRmse : Option ℚ
  bestState : Option ℕ
  trace : List Event
  log : List (ℕ × ℚ × ℚ × ℚ)
deriving DecidableEq

/-- The comparison `best_rmse > test_rmse` on line 134: `np.inf` compares
greater than every finite rmse. -/
def bestGT : Option ℚ → ℚ → Bool
  | none, _ => true
  | some b, t => decide (t < b)

/-- Events emitted by one iteration of the epoch loop, in the order the body
performs the corresponding operations. -/
def epochEvents (i : ℕ) : List Event :=
  [Event.trainPass i, Event.evalValid i, Event.evalTest i,
   Event.lrDecayCheck i, Event.checkpointUpdate i]

/-- One iteration of `for epoch_idx in epochs` (`src/train.py`, lines
112-138): run `train_epoch`, evaluate on valid and test, log `eval_info`,
decay every param group's lr when `epoch_idx % lr_decay_step == 0`, and
update the best checkpoint when `best_rmse > test_rmse`. -/
def epochStep (a : TrainArgs) (data : ℕ → EpochResult) (s : TrainState)
    (i : ℕ) : TrainState :=
  let d := data i
  let trace1 := s.trace ++ epochEvents i
  let log1 := s.log ++ [(i, d.trainLoss, d.valRmse, d.testRmse)]
  let lrs1 := if i % a.lrDecayStep = 0
    then s.lrs.map (fun lr => a.lrDecayFactor * lr) else s.lrs
  if bestGT s.bestRmse d.testRmse then
    { lrs := lrs1, bestEpoch := i, bestRmse := some d.testRmse,
      bestState := some d.modelState, trace := trace1, log := log1 }
  else
    { lrs := lrs1, bestEpoch := s.bestEpoch, bestRmse := s.bestRmse,
      bestState := s.bestState, trace := trace1, log := log1 }

/-- State before the loop: one Adam param group at `lr=args.train_lr`
(line 103), `best_epoch = 0`, `best_rmse = np.inf` (lines 108-109),
`best_state` unbound. -/
def initState (a : TrainArgs) : TrainState :=
  { lrs := [a.trainLr], bestEpoch := 0, bestRmse := none,
    bestState := none, trace := [], log := [] }

/-- The epoch loop run for `n` epochs: `epochs = list(range(1,
args.train_epochs+1))` iterated in increasing order (lines 111-112). -/
def trainLoop (a : TrainArgs) (data : ℕ → EpochResult) (n : ℕ) : TrainState :=
  (List.range' 1 n).foldl (epochStep a data) (initState a)

/-- The whole loop of `train`, for `args.train_epochs` epochs. -/
def trainRun (a : TrainArgs) (data : ℕ → EpochResult) : TrainState :=
  trainLoop a data a.trainEpochs

/-- The value `train` returns: `best_rmse` (line 142);
`none` is the untouched `np.inf`. -/
def trainReturn (a : TrainArgs) (data : ℕ → EpochResult) : Option ℚ :=
  (trainRun a data).bestRmse

/-- The state `th.save` writes to `./parameters/{key}_{rmse}.pt` (line 140):
the deep-copied `best_state`. -/
def trainSaved (a : TrainArgs) (data : ℕ → EpochResult) : Option ℕ :=
  (trainRun a data).bestState

theorem trainLoop_zero (a : TrainArgs) (data : ℕ → EpochResult) :
    trainLoop a data 0 = initState a := rfl

theorem trainLoop_succ (a : TrainArgs) (data : ℕ → EpochResult) (n : ℕ) :
    trainLoop a data (n + 1) = epochStep a data (trainLoop a data n) (n + 1) := by
  unfold trainLoop
  rw [List.range'_1_concat, List.foldl_append]
  simp [Nat.add_comm]

theorem epochStep_bestEpoch (a : TrainArgs) (data : ℕ → EpochResult)
    (s : TrainState) (i : ℕ) :
    (epochStep a data s i).bestEpoch =
      if bestGT s.bestRmse (data i).testRmse then i else s.bestEpoch := by
  simp only [epochStep]
  split <;> rfl

theorem epochStep_bestRmse (a : TrainArgs) (data : ℕ → EpochResult)
    (s : TrainState) (i : ℕ) :
    (epochStep a data s i).bestRmse =
      if bestGT s.bestRmse (data i).testRmse then some ((data i).testRmse)
      else s.bestRmse := by
  simp only [epochStep]
  split <;> rfl

theorem epochStep_bestState (a : TrainArgs) (data : ℕ → EpochResult)
    (s : TrainState) (i : ℕ) :
    (epochStep a data s i).bestState =
      if bestGT s.bestRmse (data i).testRmse then some ((data i).modelState)
      else s.bestState := by
  simp only [epochStep]
  split <;> rfl

theorem epochStep_lrs (a : TrainArgs) (data : ℕ → EpochResult)
    (s : TrainState) (i : ℕ) :
    (epochStep a data s i).lrs =
      if i % a.lrDecayStep = 0 then s.lrs.map (fun lr => a.lrDecayFactor * lr)
      else s.lrs := by
  simp only [epochStep]
  split <;> rfl

theorem epochStep_trace (a : TrainArgs) (data : ℕ → EpochResult)
    (s : TrainState) (i : ℕ) :
    (epochStep a data s i).trace = s.trace ++ epochEvents i := by
  simp only [epochStep]
  split <;> rfl

/-- Invariant of the epoch loop: after `n ≥ 1` epochs, `best_epoch` is the
earliest epoch among `1..n` whose test rmse is minimal, `best_rmse` is that
minimum, and `best_state` is that epoch's deep-copied snapshot. -/
theorem trainLoop_best_spec (a : TrainArgs) (data : ℕ → EpochResult) :
    ∀ n : ℕ, 1 ≤ n →
    ∃ e, 1 ≤ e ∧ e ≤ n ∧
      (trainLoop a data n).bestEpoch = e ∧
      (trainLoop a data n).bestRmse = some ((data e).testRmse) ∧
      (trainLoop a data n).bestState = some ((data e).modelState) ∧
      (∀ j, 1 ≤ j → j ≤ n → (data e).testRmse ≤ (data j).testRmse) ∧
      (∀ j, 1 ≤ j → j < e → (data e).testRmse < (data j).testRmse) := by
  intro n hn
  induction n with
  | zero => exact absurd hn (by omega)
  | succ m ih =>
    rw [trainLoop_succ]
    rcases Nat.eq_zero_or_pos m with hm | hm
    · subst hm
      refine ⟨1, le_refl 1, le_refl 1, ?_, ?_, ?_, ?_, ?_⟩
      · rw [epochStep_bestEpoch]; rfl
      · rw [epochStep_bestRmse]; rfl
      · rw [epochStep_bestState]; rfl
      · intro j h1 h2
        have : j = 1 := by omega
        subst this; exact le_refl _
      · intro j h1 h2; omega
    · obtain ⟨e, he1, hem, hbe, hbr, hbs, hmin, hstrict⟩ := ih hm
      by_cases hlt : (data (m + 1)).testRmse < (data e).testRmse
      · have hgt : bestGT (trainLoop a data m).bestRmse ((data (m + 1)).testRmse)
            = true := by
          rw [hbr]; simp [bestGT, hlt]
        refine ⟨m + 1, by omega, le_refl _, ?_, ?_, ?_, ?_, ?_⟩
        · rw [epochStep_bestEpoch, hgt]; rfl
        · rw [epochStep_bestRmse, hgt]; rfl
        · rw [epochStep_bestState, hgt]; rfl
        · intro j h1 h2
          rcases Nat.lt_or_ge j (m + 1) with hj | hj
          · exact le_of_lt (lt_of_lt_of_le hlt (hmin j h1 (by omega)))
          · have : j = m + 1 := by omega
            subst this; exact le_refl _
        · intro j h1 h2
          exact lt_of_lt_of_le hlt (hmin j h1 (by omega))
      · have hle : (data e).testRmse ≤ (data (m + 1)).testRmse := le_of_not_lt hlt
        have hgt : bestGT (trainLoop a data m).bestRmse ((data (m + 1)).testRmse)
            = false := by
          rw [hbr]; simp [bestGT]; exact hle
        refine ⟨e, he1, by omega, ?_, ?_, ?_, ?_, hstrict⟩
        · rw [epochStep_bestEpoch, hgt]; simp [hbe]
        · rw [epochStep_bestRmse, hgt]; simp [hbr]
        · rw [epochStep_bestState, hgt]; simp [hbs]
        · intro j h1 h2
          rcases Nat.lt_or_ge j (m + 1) with hj | hj
          · exact hmin j h1 (by omega)
          · have : j = m + 1 := by omega
            subst this; exact hle

/-- C1: with `train_epochs = N ≥ 1` and every per-epoch test rmse a (finite)
rational, `train` returns the minimum over epochs `1..N` of the test rmse,
`best_epoch` is the earliest epoch attaining it, and the state written by
`th.save` is the deep copy of the model state captured at that epoch. -/
theorem train_checkpoint_selection (a : TrainArgs) (data : ℕ → EpochResult)
    (h : 1 ≤ a.trainEpochs) :
    ∃ e, 1 ≤ e ∧ e ≤ a.trainEpochs ∧
      (trainRun a data).bestEpoch = e ∧
      trainReturn a data = some ((data e).testRmse) ∧
      trainSaved a data = some ((data e).modelState) ∧
      (∀ j, 1 ≤ j → j ≤ a.trainEpochs → (data e).testRmse ≤ (data j).testRmse) ∧
      (∀ j, 1 ≤ j → j < e → (data e).testRmse < (data j).testRmse) :=
  trainLoop_best_spec a data a.trainEpochs h

/-- Concrete three-epoch run whose test rmse dips at epoch 2. -/
def exArgsA : TrainArgs :=
  { trainEpochs := 3, trainLr := 1, lrDecayStep := 10, lrDecayFactor := 1/2 }

/-- Epoch data for the concrete run: test rmse 2, 1, 2; snapshots 1, 2, 3. -/
def exDataA : ℕ → EpochResult := fun i =>
  { trainLoss := 0, valRmse := 0, testRmse := if i = 2 then 1 else 2,
    modelState := i }

theorem train_checkpoint_selection_witness :
    1 ≤ exArgsA.trainEpochs ∧
    ∃ e, 1 ≤ e ∧ e ≤ exArgsA.trainEpochs ∧
      (trainRun exArgsA exDataA).bestEpoch = e ∧
      trainReturn exArgsA exDataA = some ((exDataA e).testRmse) ∧
      trainSaved exArgsA exDataA = some ((exDataA e).modelState) ∧
      (∀ j, 1 ≤ j → j ≤ exArgsA.trainEpochs →
        (exDataA e).testRmse ≤ (exDataA j).testRmse) ∧
      (∀ j, 1 ≤ j → j < e → (exDataA e).testRmse < (exDataA j).testRmse) :=
  ⟨by decide, train_checkpoint_selection exArgsA exDataA (by decide)⟩

/-- The optimizer param-group learning rates after `n` epochs: the single
Adam group's lr has been multiplied by the decay factor once per multiple of
`lr_decay_step` among `1..n`. -/
theorem trainLoop_lrs (a : TrainArgs) (data : ℕ → EpochResult)
    (_hstep : 1 ≤ a.lrDecayStep) :
    ∀ n : ℕ, (trainLoop a data n).lrs =
      [a.lrDecayFactor ^ (n / a.lrDecayStep) * a.trainLr] := by
  intro n
  induction n with
  | zero => simp [trainLoop_zero, initState]
  | succ m ih =>
    rw [trainLoop_succ, epochStep_lrs, ih]
    by_cases hd : a.lrDecayStep ∣ (m + 1)
    · rw [if_pos (Nat.mod_eq_zero_of_dvd hd), Nat.succ_div_of_dvd hd]
      simp only [List.map_cons, List.map_nil]
      congr 1
      rw [pow_succ]
      ring
    · rw [if_neg (fun hmod => hd (Nat.dvd_of_mod_eq_zero hmod)),
        Nat.succ_div_of_not_dvd hd]

/-- C3: with a positive `lr_decay_step`, after `e` completed epochs every
optimizer param group's lr equals `train_lr * lr_decay_factor ^ (e /
lr_decay_step)` over the rationals; an epoch divisible by the step multiplies
every group's lr by the factor, and any other epoch leaves the lrs alone. -/
theorem train_lr_decay (a : TrainArgs) (data : ℕ → EpochResult)
    (hstep : 1 ≤ a.lrDecayStep) (e : ℕ) :
    (∀ lr ∈ (trainLoop a data e).lrs,
      lr = a.trainLr * a.lrDecayFactor ^ (e / a.lrDecayStep)) ∧
    (∀ s i, a.lrDecayStep ∣ i →
      (epochStep a data s i).lrs = s.lrs.map (fun lr => a.lrDecayFactor * lr)) ∧
    (∀ s i, ¬ a.lrDecayStep ∣ i → (epochStep a data s i).lrs = s.lrs) := by
  refine ⟨?_, ?_, ?_⟩
  · intro lr hlr
    rw [trainLoop_lrs a data hstep e] at hlr
    simp only [List.mem_singleton] at hlr
    rw [hlr]; ring
  · intro s i hd
    rw [epochStep_lrs, if_pos (Nat.mod_eq_zero_of_dvd hd)]
  · intro s i hd
    rw [epochStep_lrs, if_neg (fun hmod => hd (Nat.dvd_of_mod_eq_zero hmod))]

/-- Concrete args with decay step 2 and factor 1/2. -/
def exArgsB : TrainArgs :=
  { trainEpochs := 5, trainLr := 10, lrDecayStep := 2, lrDecayFactor := 1/2 }

theorem train_lr_decay_witness :
    1 ≤ exArgsB.lrDecayStep ∧
    ((∀ lr ∈ (trainLoop exArgsB exDataA 5).lrs,
      lr = exArgsB.trainLr * exArgsB.lrDecayFactor ^ (5 / exArgsB.lrDecayStep)) ∧
    (∀ s i, exArgsB.lrDecayStep ∣ i →
      (epochStep exArgsB exDataA s i).lrs =
        s.lrs.map (fun lr => exArgsB.lrDecayFactor * lr)) ∧
    (∀ s i, ¬ exArgsB.lrDecayStep ∣ i →
      (epochStep exArgsB exDataA s i).lrs = s.lrs)) :=
  ⟨by decide, train_lr_decay exArgsB exDataA (by decide) 5⟩

/-- The full operation trace of the loop: epochs `1..n` in increasing order,
each contributing its five operations in program order. -/
theorem trainLoop_trace (a : TrainArgs) (data : ℕ → EpochResult) :
    ∀ n : ℕ, (trainLoop a data n).trace =
      ((List.range' 1 n).map epochEvents).flatten := by
  intro n
  induction n with
  | zero => rfl
  | succ m ih =>
    rw [trainLoop_succ, epochStep_trace, ih, List.range'_1_concat]
    simp [Nat.add_comm]

/-- C4: `train` executes exactly `train_epochs` epochs, indexed `1..N` in
increasing order, and each epoch performs in order: the full `train_epoch`
pass, evaluation on valid, evaluation on test, the lr-decay check, and the
best-checkpoint update. -/
theorem train_epoch_structure (a : TrainArgs) (data : ℕ → EpochResult) :
    (trainRun a data).trace =
      ((List.range' 1 a.trainEpochs).map epochEvents).flatten :=
  trainLoop_trace a data a.trainEpochs

/-- Two runs whose external results agree on everything checkpoint selection
reads (test rmse and model snapshots) produce identical best fields. -/
theorem trainLoop_best_eq_of_test_eq (a : TrainArgs)
    (data dataB : ℕ → EpochResult)
    (h : ∀ i, (data i).testRmse = (dataB i).testRmse ∧
      (data i).modelState = (dataB i).modelState) :
    ∀ n, (trainLoop a data n).bestEpoch = (trainLoop a dataB n).bestEpoch ∧
      (trainLoop a data n).bestRmse = (trainLoop a dataB n).bestRmse ∧
      (trainLoop a data n).bestState = (trainLoop a dataB n).bestState := by
  intro n
  induction n with
  | zero => exact ⟨rfl, rfl, rfl⟩
  | succ m ih =>
    obtain ⟨he, hr, hs⟩ := ih
    obtain ⟨ht, hms⟩ := h (m + 1)
    refine ⟨?_, ?_, ?_⟩
    · rw [trainLoop_succ, trainLoop_succ, epochStep_bestEpoch,
        epochStep_bestEpoch, ht, hr, he]
    · rw [trainLoop_succ, trainLoop_succ, epochStep_bestRmse,
        epochStep_bestRmse, ht, hr]
    · rw [trainLoop_succ, trainLoop_succ, epochStep_bestState,
        epochStep_bestState, ht, hr, hms, hs]

/-- C6: the per-epoch validation rmse is only logged; two runs of `train`
identical except for the values `evaluate` produces on `valid_loader` yield
the same `best_epoch`, the same returned best rmse and the same saved
checkpoint — selection depends on the test-set rmse only. -/
theorem train_validation_noninterference (a : TrainArgs)
    (data dataB : ℕ → EpochResult)
    (h : ∀ i, (data i).trainLoss = (dataB i).trainLoss ∧
      (data i).testRmse = (dataB i).testRmse ∧
      (data i).modelState = (dataB i).modelState) :
    (trainRun a data).bestEpoch = (trainRun a dataB).bestEpoch ∧
    trainReturn a data = trainReturn a dataB ∧
    trainSaved a data = trainSaved a dataB :=
  trainLoop_best_eq_of_test_eq a data dataB
    (fun i => ⟨(h i).2.1, (h i).2.2⟩) a.trainEpochs

/-- Run with constant validation rmse 5. -/
def exDataB : ℕ → EpochResult := fun i =>
  { trainLoss := 0, valRmse := 5, testRmse := (i : ℚ) + 1, modelState := i }

/-- Same run except the validation rmse differs at every epoch. -/
def exDataC : ℕ → EpochResult := fun i =>
  { trainLoss := 0, valRmse := (i : ℚ) + 7, testRmse := (i : ℚ) + 1,
    modelState := i }

theorem train_validation_noninterference_witness :
    (∀ i, (exDataB i).trainLoss = (exDataC i).trainLoss ∧
      (exDataB i).testRmse = (exDataC i).testRmse ∧
      (exDataB i).modelState = (exDataC i).modelState) ∧
    ((trainRun exArgsA exDataB).bestEpoch = (trainRun exArgsA exDataC).bestEpoch ∧
    trainReturn exArgsA exDataB = trainReturn exArgsA exDataC ∧
    trainSaved exArgsA exDataB = trainSaved exArgsA exDataC) :=
  ⟨fun _ => ⟨rfl, rfl, rfl⟩,
    train_validation_noninterference exArgsA exDataB exDataC
      (fun _ => ⟨rfl, rfl, rfl⟩)⟩

/-- What the model's forward pass produces for one batch of the loader,
together with the batch labels (`src/train.py`, lines 32-34): the prediction
vector, the cosine-similarity vector and the label vector, as rationals. -/
structure Batch where
  preds : List ℚ
  cosSim : List ℚ
  labels : List ℚ
deriving DecidableEq

/-- Optimizer operations performed for one batch, in program order
(`src/train.py`, lines 37-39). -/
inductive OptEvent where
  | zeroGrad (iter : ℕ)
  | backward (iter : ℕ)
  | step (iter : ℕ)
deriving DecidableEq

/-- The optimizer operations of one loop iteration, in program order:
`optimizer.zero_grad()`, `loss.backward()`, `optimizer.step()`. -/
def optEvents (i : ℕ) : List OptEvent :=
  [OptEvent.zeroGrad i, OptEvent.backward i, OptEvent.step i]

/-- The scalar an `nn.MSELoss()` call (default reduction `mean`) holds:
the mean of the elementwise squared differences. -/
def mseScalar (p l : List ℚ) : ℚ :=
  (List.zipWith (fun x y => (x - y) ^ 2) p l).sum / p.length

/-- `loss_fn(preds, labels)` as the 0-dimensional tensor it is: a singleton
holding the mean squared error. -/
def mseLossOut (p l : List ℚ) : List ℚ :=
  [(List.zipWith (fun x y => (x - y) ^ 2) p l).sum / p.length]

/-- `.mean()` of a tensor: the average of its entries. -/
def tmean (t : List ℚ) : ℚ := t.sum / t.length

/-- `.max()` of a (non-empty) tensor: its largest entry. -/
def tmax : List ℚ → ℚ
  | [] => 0
  | x :: xs => xs.foldl max x

/-- The batch loss of line 34:
`loss_fn(preds, labels).mean() + 0.2*loss_fn(cos_sim, labels).max()`. -/
def batchLoss (b : Batch) : ℚ :=
  tmean (mseLossOut b.preds b.labels) + 0.2 * tmax (mseLossOut b.cosSim b.labels)

/-- `((preds - labels) ** 2).sum()` of line 42. -/
def sqErrSum (p l : List ℚ) : ℚ :=
  (List.zipWith (fun x y => (x - y) ^ 2) p l).sum

/-- The accumulators of the `train_epoch` loop (`src/train.py`, lines 22-26),
plus the optimizer-operation trace. -/
structure EpochLoopState where
  epochLoss : ℚ
  iterLoss : ℚ
  iterMse : ℚ
  iterCnt : ℕ
  trace : List OptEvent
deriving DecidableEq

/-- Initial accumulators of `train_epoch`. -/
def initEpochLoop : EpochLoopState :=
  { epochLoss := 0, iterLoss := 0, iterMse := 0, iterCnt := 0, trace := [] }

/-- One iteration of `for iter_idx, batch in enumerate(loader, start=1)`
(`src/train.py`, lines 29-51): forward pass, loss, the zero_grad/backward/step
triplet, the four accumulations weighted by `preds.shape[0]`, and the
`iter_*` resets when `iter_idx % log_interval == 0`. -/
def batchStep (logInterval : ℕ) (s : EpochLoopState) (ib : ℕ × Batch) :
    EpochLoopState :=
  let i := ib.1
  let b := ib.2
  let loss := batchLoss b
  let n : ℚ := b.preds.length
  let s1 : EpochLoopState :=
    { epochLoss := s.epochLoss + loss * n,
      iterLoss := s.iterLoss + loss * n,
      iterMse := s.iterMse + sqErrSum b.preds b.labels,
      iterCnt := s.iterCnt + b.preds.length,
      trace := s.trace ++ optEvents i }
  if i % logInterval = 0 then { s1 with iterLoss := 0, iterMse := 0, iterCnt := 0 }
  else s1

/-- The whole of `train_epoch`: fold the loop over the enumerated batches and
return `epoch_loss / len(loader.dataset)` (line 53), paired with the
optimizer-operation trace. -/
def trainEpochRun (logInterval : ℕ) (batches : List Batch)
    (datasetSize : ℕ) : ℚ × List OptEvent :=
  let fin := ((List.range' 1 batches.length).zip batches).foldl
    (batchStep logInterval) initEpochLoop
  (fin.epochLoss / datasetSize, fin.trace)

theorem batchStep_epochLoss (logInterval : ℕ) (s : EpochLoopState)
    (ib : ℕ × Batch) :
    (batchStep logInterval s ib).epochLoss =
      s.epochLoss + batchLoss ib.2 * (ib.2.preds.length : ℚ) := by
  simp only [batchStep]
  split <;> rfl

theorem batchStep_trace (logInterval : ℕ) (s : EpochLoopState)
    (ib : ℕ × Batch) :
    (batchStep logInterval s ib).trace = s.trace ++ optEvents ib.1 := by
  simp only [batchStep]
  split <;> rfl

/-- Folding the loop body over any enumerated batch list adds one batch-loss
contribution per batch to `epoch_loss` and one zero_grad/backward/step
triplet per batch to the trace, regardless of the starting accumulators. -/
theorem batchFold_spec (logInterval : ℕ) :
    ∀ (bs : List Batch) (k : ℕ) (s : EpochLoopState),
    (((List.range' k bs.length).zip bs).foldl (batchStep logInterval) s).epochLoss
      = s.epochLoss +
        (bs.map (fun b => batchLoss b * (b.preds.length : ℚ))).sum ∧
    (((List.range' k bs.length).zip bs).foldl (batchStep logInterval) s).trace
      = s.trace ++ ((List.range' k bs.length).map optEvents).flatten := by
  intro bs
  induction bs with
  | nil => intro k s; simp
  | cons b rest ih =>
    intro k s
    rw [List.length_cons, List.range'_succ]
    obtain ⟨ihLoss, ihTrace⟩ := ih (k + 1) (batchStep logInterval s (k, b))
    refine ⟨?_, ?_⟩
    · rw [List.zip_cons_cons, List.foldl_cons, ihLoss,
        batchStep_epochLoss, List.map_cons, List.sum_cons]
      ring
    · rw [List.zip_cons_cons, List.foldl_cons, ihTrace, batchStep_trace]
      simp

/-- C9: for a non-empty dataset, `train_epoch` returns the sample-weighted
average batch loss: the sum over batches of the batch scalar loss times the
batch's number of predictions, divided by the loader's dataset size. -/
theorem train_epoch_return_value (logInterval : ℕ) (batches : List Batch)
    (datasetSize : ℕ) (_h : 0 < datasetSize) :
    (trainEpochRun logInterval batches datasetSize).1 =
      (batches.map (fun b => batchLoss b * (b.preds.length : ℚ))).sum
        / (datasetSize : ℚ) := by
  simp only [trainEpochRun]
  rw [(batchFold_spec logInterval batches 1 initEpochLoop).1]
  simp [initEpochLoop]

/-- C5: every batch triggers exactly one optimizer update, always as the
triplet zero_grad, backward, step of its own iteration — so no step uses a
previous batch's gradients — and the stepped-on scalar loss equals
`MSELoss(preds, labels) + 0.2 * MSELoss(cos_sim, labels)`: the trailing
`.mean()` and `.max()` are identities on the already-reduced scalar. -/
theorem train_epoch_optimizer_stepping (logInterval : ℕ)
    (batches : List Batch) (datasetSize : ℕ) :
    (trainEpochRun logInterval batches datasetSize).2 =
      ((List.range' 1 batches.length).map optEvents).flatten ∧
    ∀ b : Batch, batchLoss b =
      mseScalar b.preds b.labels + 0.2 * mseScalar b.cosSim b.labels := by
  constructor
  · simp only [trainEpochRun]
    rw [(batchFold_spec logInterval batches 1 initEpochLoop).2]
    rfl
  · intro b
    simp [batchLoss, tmean, tmax, mseLossOut, mseScalar]

/-- Witness batches: two batches of sizes 2 and 1. -/
def exBatches : List Batch :=
  [{ preds := [1, 2], cosSim := [1, 1], labels := [1, 3] },
   { preds := [2], cosSim := [0], labels := [1] }]

theorem train_epoch_return_value_witness :
    0 < 3 ∧
    (trainEpochRun 2 exBatches 3).1 =
      (exBatches.map (fun b => batchLoss b * (b.preds.length : ℚ))).sum
        / ((3 : ℕ) : ℚ) :=
  ⟨by decide, train_epoch_return_value 2 exBatches 3 (by decide)⟩

/-- The configuration dictionary `main` builds from one YAML file, reduced to
what the sweep loop touches: the `train_lr` entry it overwrites, the
`train_lrs` list it iterates, and an opaque residue standing for every other
entry (`src/train.py`, lines 153, 160-162). -/
structure Args where
  trainLr : ℚ
  trainLrs : List ℚ
  other : ℕ
deriving DecidableEq

/-- State of the per-file sweep in `main` (`src/train.py`, lines 158-166):
the shared `args` dictionary (`sub_args = args` aliases it, so the in-place
`sub_args['train_lr'] = lr` mutates it), `final_best_rmse` (initially 100),
`best_lr` (initially `None`), plus the list of `train_lr` values `train` was
called with, one entry per call, in call order. -/
structure SweepState where
  args : Args
  finalBestRmse : ℚ
  bestLr : Option ℚ
  calls : List ℚ
deriving DecidableEq

/-- One iteration of `for lr in args.train_lrs` (lines 160-166): alias the
dictionary, overwrite its `train_lr` in place, call `train` on it, and keep
the strictly better rmse together with its lr. `train` is abstracted by the
function `trainFn` from the full mutated configuration to its returned best
rmse. -/
def sweepStep (trainFn : Args → ℚ) (s : SweepState) (lr : ℚ) : SweepState :=
  let subArgs : Args := { s.args with trainLr := lr }
  let bestRmse := trainFn subArgs
  if bestRmse < s.finalBestRmse then
    { args := subArgs, finalBestRmse := bestRmse, bestLr := some lr,
      calls := s.calls ++ [subArgs.trainLr] }
  else
    { args := subArgs, finalBestRmse := s.finalBestRmse, bestLr := s.bestLr,
      calls := s.calls ++ [subArgs.trainLr] }

/-- The whole sweep over `args.train_lrs` for one configuration file, from
`final_best_rmse = 100` and `best_lr = None` (lines 158-166). -/
def sweep (trainFn : Args → ℚ) (a0 : Args) : SweepState :=
  a0.trainLrs.foldl (sweepStep trainFn)
    { args := a0, finalBestRmse := 100, bestLr := none, calls := [] }

theorem sweepStep_args (trainFn : Args → ℚ) (s : SweepState) (lr : ℚ) :
    (sweepStep trainFn s lr).args = { s.args with trainLr := lr } := by
  simp only [sweepStep]
  split <;> rfl

theorem sweepStep_calls (trainFn : Args → ℚ) (s : SweepState) (lr : ℚ) :
    (sweepStep trainFn s lr).calls = s.calls ++ [lr] := by
  simp only [sweepStep]
  split <;> rfl

theorem sweepStep_finalBestRmse (trainFn : Args → ℚ) (s : SweepState) (lr : ℚ) :
    (sweepStep trainFn s lr).finalBestRmse =
      if trainFn { s.args with trainLr := lr } < s.finalBestRmse
      then trainFn { s.args with trainLr := lr } else s.finalBestRmse := by
  simp only [sweepStep]
  split <;> rfl

theorem sweepStep_bestLr (trainFn : Args → ℚ) (s : SweepState) (lr : ℚ) :
    (sweepStep trainFn s lr).bestLr =
      if trainFn { s.args with trainLr := lr } < s.finalBestRmse
      then some lr else s.bestLr := by
  simp only [sweepStep]
  split <;> rfl

/-- Invariant of the sweep loop: starting from any state whose dictionary is
the base configuration up to its `train_lr` entry, the fold calls `train`
once per remaining lr in order, only lowers `final_best_rmse`, bounds it by
every remaining per-lr rmse, and either leaves the (rmse, lr) report pair
unchanged or moves it to a strictly better lr of the remaining list. -/
theorem sweepFold_spec (trainFn : Args → ℚ) (base : Args) :
    ∀ (ls : List ℚ) (s : SweepState) (t : ℚ),
    s.args = { base with trainLr := t } →
    (ls.foldl (sweepStep trainFn) s).calls = s.calls ++ ls ∧
    (ls.foldl (sweepStep trainFn) s).finalBestRmse ≤ s.finalBestRmse ∧
    (∀ l ∈ ls, (ls.foldl (sweepStep trainFn) s).finalBestRmse ≤
      trainFn { base with trainLr := l }) ∧
    (((ls.foldl (sweepStep trainFn) s).finalBestRmse = s.finalBestRmse ∧
      (ls.foldl (sweepStep trainFn) s).bestLr = s.bestLr) ∨
      ∃ l ∈ ls, (ls.foldl (sweepStep trainFn) s).bestLr = some l ∧
        trainFn { base with trainLr := l } =
          (ls.foldl (sweepStep trainFn) s).finalBestRmse ∧
        (ls.foldl (sweepStep trainFn) s).finalBestRmse < s.finalBestRmse) := by
  intro ls
  induction ls with
  | nil =>
    intro s t hs
    refine ⟨by simp, le_refl _, by simp, Or.inl ⟨rfl, rfl⟩⟩
  | cons l rest ih =>
    intro s t hs
    rw [List.foldl_cons]
    have hargs : (sweepStep trainFn s l).args = { base with trainLr := l } := by
      rw [sweepStep_args, hs]
    have hcall : (sweepStep trainFn s l).calls = s.calls ++ [l] :=
      sweepStep_calls trainFn s l
    have htf : trainFn { s.args with trainLr := l } =
        trainFn { base with trainLr := l } := by rw [hs]
    obtain ⟨ihCalls, ihLe, ihMin, ihDisj⟩ :=
      ih (sweepStep trainFn s l) l hargs
    by_cases hc : trainFn { base with trainLr := l } < s.finalBestRmse
    · have hf : (sweepStep trainFn s l).finalBestRmse =
          trainFn { base with trainLr := l } := by
        rw [sweepStep_finalBestRmse, htf, if_pos hc]
      have hb : (sweepStep trainFn s l).bestLr = some l := by
        rw [sweepStep_bestLr, htf, if_pos hc]
      refine ⟨by rw [ihCalls, hcall]; simp, ?_, ?_, ?_⟩
      · calc (rest.foldl (sweepStep trainFn) (sweepStep trainFn s l)).finalBestRmse
            ≤ (sweepStep trainFn s l).finalBestRmse := ihLe
          _ = trainFn { base with trainLr := l } := hf
          _ ≤ s.finalBestRmse := le_of_lt hc
      · intro x hx
        rcases List.mem_cons.mp hx with hx | hx
        · rw [hx, ← hf]; exact ihLe
        · exact ihMin x hx
      · rcases ihDisj with ⟨hfe, hbe⟩ | ⟨x, hx, hbx, hex, hlt⟩
        · refine Or.inr ⟨l, List.mem_cons_self l rest, ?_, ?_, ?_⟩
          · rw [hbe, hb]
          · rw [hfe, hf]
          · rw [hfe, hf]; exact hc
        · refine Or.inr ⟨x, List.mem_cons_of_mem l hx, hbx, hex, ?_⟩
          calc (rest.foldl (sweepStep trainFn) (sweepStep trainFn s l)).finalBestRmse
              < (sweepStep trainFn s l).finalBestRmse := hlt
            _ = trainFn { base with trainLr := l } := hf
            _ ≤ s.finalBestRmse := le_of_lt hc
    · have hge : s.finalBestRmse ≤ trainFn { base with trainLr := l } :=
        le_of_not_lt hc
      have hf : (sweepStep trainFn s l).finalBestRmse = s.finalBestRmse := by
        rw [sweepStep_finalBestRmse, htf, if_neg hc]
      have hb : (sweepStep trainFn s l).bestLr = s.bestLr := by
        rw [sweepStep_bestLr, htf, if_neg hc]
      refine ⟨by rw [ihCalls, hcall]; simp, ?_, ?_, ?_⟩
      · rw [← hf]; exact ihLe
      · intro x hx
        rcases List.mem_cons.mp hx with hx | hx
        · rw [hx]
          calc (rest.foldl (sweepStep trainFn) (sweepStep trainFn s l)).finalBestRmse
              ≤ (sweepStep trainFn s l).finalBestRmse := ihLe
            _ = s.finalBestRmse := hf
            _ ≤ trainFn { base with trainLr := l } := hge
        · exact ihMin x hx
      · rcases ihDisj with ⟨hfe, hbe⟩ | ⟨x, hx, hbx, hex, hlt⟩
        · exact Or.inl ⟨by rw [hfe, hf], by rw [hbe, hb]⟩
        · refine Or.inr ⟨x, List.mem_cons_of_mem l hx, hbx, hex, ?_⟩
          rw [← hf]; exact hlt

/-- Single-lr configuration whose training run lands above the sentinel. -/
def cexArgs : Args := { trainLr := 0, trainLrs := [1], other := 0 }

/-- A `train` outcome of rmse 150 for every configuration. -/
def cexTrainFn : Args → ℚ := fun _ => 150

/-- C2 counterexample: with one learning rate whose best rmse is 150, the
sweep reports `final_best_rmse = 100` (the initial sentinel) and
`best_lr = None`, not the minimum 150 of the per-lr best rmses and its lr. -/
theorem sweep_report_counterexample :
    cexTrainFn { cexArgs with trainLr := 1 } = 150 ∧
    (sweep cexTrainFn cexArgs).finalBestRmse = 100 ∧
    (sweep cexTrainFn cexArgs).finalBestRmse ≠ 150 ∧
    (sweep cexTrainFn cexArgs).bestLr = none := by
  refine ⟨rfl, rfl, ?_, rfl⟩
  decide

/-- C2 (amended): `main` calls `train` exactly once per learning rate of
`args.train_lrs`, in list order, on the configuration holding that lr; and
whenever some per-lr best rmse lies below the initial sentinel 100, the
reported final best rmse is the minimum of the per-lr best rmses and the
reported lr is a learning rate achieving that minimum; whenever every
per-lr best rmse is at least 100, the sentinel 100 and `None` are
reported instead. -/
theorem sweep_calls_and_reports (trainFn : Args → ℚ) (a0 : Args) :
    (sweep trainFn a0).calls = a0.trainLrs ∧
    ((∃ l ∈ a0.trainLrs, trainFn { a0 with trainLr := l } < 100) →
      (∀ l ∈ a0.trainLrs, (sweep trainFn a0).finalBestRmse ≤
        trainFn { a0 with trainLr := l }) ∧
      ∃ l ∈ a0.trainLrs, (sweep trainFn a0).bestLr = some l ∧
        trainFn { a0 with trainLr := l } = (sweep trainFn a0).finalBestRmse) ∧
    ((∀ l ∈ a0.trainLrs, 100 ≤ trainFn { a0 with trainLr := l }) →
      (sweep trainFn a0).finalBestRmse = 100 ∧
      (sweep trainFn a0).bestLr = none) := by
  obtain ⟨hcalls, _, hmin, hdisj⟩ :=
    sweepFold_spec trainFn a0 a0.trainLrs
      { args := a0, finalBestRmse := 100, bestLr := none, calls := [] }
      a0.trainLr rfl
  refine ⟨by simpa using hcalls, ?_, ?_⟩
  · rintro ⟨l, hl, hlt⟩
    refine ⟨hmin, ?_⟩
    rcases hdisj with ⟨hfe, _⟩ | ⟨x, hx, hbx, hex, _⟩
    · have hle100 := hmin l hl
      rw [hfe] at hle100
      exact absurd hlt (not_lt.mpr hle100)
    · exact ⟨x, hx, hbx, hex⟩
  · intro hall
    rcases hdisj with ⟨hfe, hbe⟩ | ⟨x, hx, _, hex, hlt⟩
    · exact ⟨hfe, hbe⟩
    · exfalso
      have h100 := hall x hx
      rw [hex] at h100
      exact absurd hlt (not_lt.mpr h100)

/-- Two-lr configuration for the witnesses. -/
def exSweepArgs : Args := { trainLr := 0, trainLrs := [3, 7], other := 5 }

/-- A `train` outcome depending on the configuration's lr entry. -/
def exTrainFn : Args → ℚ := fun a => a.trainLr + 1

theorem sweep_calls_and_reports_witness :
    ((sweep exTrainFn exSweepArgs).calls = exSweepArgs.trainLrs ∧
    ((∀ l ∈ exSweepArgs.trainLrs, (sweep exTrainFn exSweepArgs).finalBestRmse ≤
      exTrainFn { exSweepArgs with trainLr := l }) ∧
    ∃ l ∈ exSweepArgs.trainLrs, (sweep exTrainFn exSweepArgs).bestLr = some l ∧
      exTrainFn { exSweepArgs with trainLr := l } =
        (sweep exTrainFn exSweepArgs).finalBestRmse)) ∧
    ((sweep cexTrainFn cexArgs).finalBestRmse = 100 ∧
      (sweep cexTrainFn cexArgs).bestLr = none) :=
  ⟨⟨(sweep_calls_and_reports exTrainFn exSweepArgs).1,
    (sweep_calls_and_reports exTrainFn exSweepArgs).2.1
      ⟨3, by norm_num [exSweepArgs], by norm_num [exTrainFn]⟩⟩,
   (sweep_calls_and_reports cexTrainFn cexArgs).2.2
     (fun l hl => by norm_num [cexTrainFn])⟩

theorem sweepFold_args_fields (trainFn : Args → ℚ) :
    ∀ (ls : List ℚ) (s : SweepState),
    (ls.foldl (sweepStep trainFn) s).args.trainLr = ls.getLastD s.args.trainLr ∧
    (ls.foldl (sweepStep trainFn) s).args.trainLrs = s.args.trainLrs ∧
    (ls.foldl (sweepStep trainFn) s).args.other = s.args.other := by
  intro ls
  induction ls with
  | nil => intro s; exact ⟨rfl, rfl, rfl⟩
  | cons l rest ih =>
    intro s
    rw [List.foldl_cons]
    obtain ⟨h1, h2, h3⟩ := ih (sweepStep trainFn s l)
    have hl : (sweepStep trainFn s l).args.trainLr = l := by
      rw [sweepStep_args]
    refine ⟨?_, ?_, ?_⟩
    · rw [h1, hl, List.getLastD_cons]
    · rw [h2, sweepStep_args]
    · rw [h3, sweepStep_args]

/-- C10: `sub_args = args` aliases the one shared dictionary, so the sweep
loop's in-place writes survive it: after the loop over `args.train_lrs`, the
`train_lr` entry holds the last element of `args.train_lrs`, and every other
field of `args` is unchanged by the loop itself. -/
theorem sweep_aliasing_frame (trainFn : Args → ℚ) (a0 : Args)
    (h : a0.trainLrs ≠ []) :
    a0.trainLrs.getLast? = some ((sweep trainFn a0).args.trainLr) ∧
    (sweep trainFn a0).args.trainLrs = a0.trainLrs ∧
    (sweep trainFn a0).args.other = a0.other := by
  obtain ⟨h1, h2, h3⟩ := sweepFold_args_fields trainFn a0.trainLrs
    { args := a0, finalBestRmse := 100, bestLr := none, calls := [] }
  refine ⟨?_, h2, h3⟩
  unfold sweep
  rw [h1, List.getLastD_eq_getLast?]
  cases hc : a0.trainLrs.getLast? with
  | none => exact absurd (List.getLast?_eq_none_iff.mp hc) h
  | some y => rfl

theorem sweep_aliasing_frame_witness :
    exSweepArgs.trainLrs ≠ [] ∧
    (exSweepArgs.trainLrs.getLast? =
      some ((sweep exTrainFn exSweepArgs).args.trainLr) ∧
    (sweep exTrainFn exSweepArgs).args.trainLrs = exSweepArgs.trainLrs ∧
    (sweep exTrainFn exSweepArgs).args.other = exSweepArgs.other) :=
  ⟨by decide, sweep_aliasing_frame exTrainFn exSweepArgs (by decide)⟩

/-- Observable state of `main`: how many passes of the `while 1` loop have
completed, and the reported (final best rmse, best lr) pair of every
configuration processed so far (`src/train.py`, lines 146-167). -/
structure MainState where
  iters : ℕ
  logged : List (ℚ × Option ℚ)
deriving DecidableEq

/-- One pass of `while 1` (lines 147-167): re-read the file list, sweep
every configuration file, log each file's report. The body has no break or
return; `none`, which would model the loop exiting, is never produced. -/
def mainStep (files : List Args) (trainFn : Args → ℚ) (s : MainState) :
    Option MainState :=
  let results := files.map (fun a =>
    ((sweep trainFn a).finalBestRmse, (sweep trainFn a).bestLr))
  some { iters := s.iters + 1, logged := s.logged ++ results }

/-- Whether `main` is still inside its loop or has returned. -/
inductive MainOutcome where
  | running (s : MainState)
  | returned
deriving DecidableEq

/-- Run `main`'s outer loop for `fuel` passes; `returned` is reached only if
some pass's step produces `none`. -/
def mainRun (files : List Args) (trainFn : Args → ℚ) :
    ℕ → MainState → MainOutcome
  | 0, s => MainOutcome.running s
  | fuel + 1, s =>
    match mainStep files trainFn s with
    | none => MainOutcome.returned
    | some s1 => mainRun files trainFn fuel s1

/-- C7: `main` never returns: after any number of passes of the `while 1`
loop, on any file list and any training outcomes, it is still running — each
pass re-processes the whole file list and repeats. -/
theorem main_never_returns (files : List Args) (trainFn : Args → ℚ) :
    ∀ (fuel : ℕ) (s : MainState), ∃ s1,
      mainRun files trainFn fuel s = MainOutcome.running s1 := by
  intro fuel
  induction fuel with
  | zero => intro s; exact ⟨s, rfl⟩
  | succ m ih =>
    intro s
    simp only [mainRun, mainStep]
    exact ih _

/-- Fields of `args` the model-construction branch of `train` reads
(`src/train.py`, lines 70-101). -/
structure ModelArgs where
  modelType : String
  hop : ℕ
  latentDims : List ℕ
  edgeDropout : ℚ
  inNfeats : ℕ
  outNfeats : ℕ
  inEfeats : ℕ
  outEfeats : ℕ
  numHeads : ℕ
  review : Bool
  rating : Bool
  timestamp : Bool
  nodeFeatures : Bool
deriving DecidableEq

/-- The model object a successful branch constructs, recording the keyword
arguments passed to the class constructor. -/
inductive Model where
  | igmcModel (inFeats : ℕ) (latentDim : List ℕ) (numRelations : ℕ)
      (numBases : ℕ) (regression : Bool) (edgeDropout : ℚ)
  | cgmcModel (inNfeats : ℕ) (outNfeats : ℕ) (inEfeats : ℕ) (numHeads : ℕ)
      (review : Bool) (rating : Bool) (timestamp : Bool) (nodeFeatures : Bool)
deriving DecidableEq

/-- The `if args.model_type == ...` chain of `train` (`src/train.py`, lines
70-101). The `EGMC` branch evaluates the name `EGMC`, whose import on line
15 is commented out, so it raises a NameError instead of building a model;
when no branch matches, the later use of the unbound variable `model` on
line 103 likewise raises a NameError. -/
def buildModel (a : ModelArgs) : Except String Model :=
  if a.modelType = "IGMC" then
    Except.ok (Model.igmcModel ((a.hop + 1) * 2) a.latentDims 5 4 true
      a.edgeDropout)
  else if a.modelType = "EGMC" then
    Except.error "NameError: name EGMC is not defined"
  else if a.modelType = "CGMC" then
    Except.ok (Model.cgmcModel a.inNfeats a.outNfeats a.inEfeats a.numHeads
      a.review a.rating a.timestamp a.nodeFeatures)
  else
    Except.error "NameError: name model is not defined"

/-- C8: `train` builds an IGMC model for `model_type = IGMC` with
`in_feats = (hop+1)*2`, `num_relations = 5`, `num_bases = 4`, and a CGMC
model for `model_type = CGMC`; the EGMC variant's import is commented out,
so the `model_type = EGMC` branch fails with an undefined-name error rather
than producing a model. -/
theorem build_model_variants (a : ModelArgs) :
    (a.modelType = "IGMC" → buildModel a =
      Except.ok (Model.igmcModel ((a.hop + 1) * 2) a.latentDims 5 4 true
        a.edgeDropout)) ∧
    (a.modelType = "CGMC" → buildModel a =
      Except.ok (Model.cgmcModel a.inNfeats a.outNfeats a.inEfeats a.numHeads
        a.review a.rating a.timestamp a.nodeFeatures)) ∧
    (a.modelType = "EGMC" → buildModel a =
      Except.error "NameError: name EGMC is not defined") := by
  refine ⟨?_, ?_, ?_⟩ <;> intro h <;> simp [buildModel, h]

/-- Concrete configuration selecting the EGMC variant. -/
def exModelArgs : ModelArgs :=
  { modelType := "EGMC", hop := 1, latentDims := [32, 32, 32, 32],
    edgeDropout := 1/5, inNfeats := 4, outNfeats := 8, inEfeats := 8,
    outEfeats := 8, numHeads := 4, review := true, rating := true,
    timestamp := false, nodeFeatures := false }

theorem build_model_variants_witness :
    buildModel exModelArgs =
      Except.error "NameError: name EGMC is not defined" :=
  (build_model_variants exModelArgs).2.2 rfl

end CGMC
